import Mathlib

/-!
Verification of the CAB-Scrape course-data consolidation pipeline.

Python strings are modelled as `List Char`; Python `None` (and raised
exceptions, where noted) are modelled with `Option` / `Except`.
-/

set_option maxHeartbeats 1000000
set_option maxRecDepth 8192

/-- Python strings are modelled as lists of characters. -/
abbrev Str := List Char

instance {ε α : Type} [DecidableEq ε] [DecidableEq α] : DecidableEq (Except ε α) := fun x y =>
  match x, y with
  | .ok a, .ok b =>
    if h : a = b then isTrue (by rw [h]) else isFalse (fun hc => h (Except.ok.inj hc))
  | .ok _, .error _ => isFalse (fun hc => Except.noConfusion hc)
  | .error _, .ok _ => isFalse (fun hc => Except.noConfusion hc)
  | .error a, .error b =>
    if h : a = b then isTrue (by rw [h]) else isFalse (fun hc => h (Except.error.inj hc))

/-! ## Semester Resolver (src/scrape.py, get_semester) -/

/-- Embedding of `get_semester` (src/scrape.py).  The local variable
`semester = srcdb[4:]` is inlined as `srcdb.drop 4`; the `raise Exception(...)`
is modelled as `Except.error`. -/
def get_semester (srcdb : Str) : Except Str Str :=
  if srcdb.drop 4 = "10".toList then .ok "Fall".toList
  else if srcdb.drop 4 = "15".toList then .ok "Winter".toList
  else if srcdb.drop 4 = "20".toList then .ok "Spring".toList
  else if srcdb.drop 4 = "00".toList then .ok "Summer".toList
  else .error ("Invalid srcdb for semester lookup: ".toList ++ srcdb)

/-- Dropping four characters yields a fixed two-character string exactly when
the input has length six and its last two characters are that string. -/
lemma drop_four_eq_iff (s t : Str) (ht : t.length = 2) :
    s.drop 4 = t ↔ s.length = 6 ∧ s.drop (s.length - 2) = t := by
  constructor
  · intro h
    have hlen : s.length - 4 = 2 := by
      rw [← List.length_drop, h, ht]
    have h6 : s.length = 6 := by omega
    refine ⟨h6, ?_⟩
    rw [h6]
    exact h
  · rintro ⟨h6, hd⟩
    rw [← hd, h6]

lemma get_semester_ok_fall (s : Str) :
    get_semester s = .ok "Fall".toList ↔ s.drop 4 = "10".toList := by
  unfold get_semester
  split_ifs with h1 h2 h3 h4
  · exact iff_of_true rfl h1
  · exact iff_of_false (fun h => absurd (Except.ok.inj h) (by decide)) h1
  · exact iff_of_false (fun h => absurd (Except.ok.inj h) (by decide)) h1
  · exact iff_of_false (fun h => absurd (Except.ok.inj h) (by decide)) h1
  · exact iff_of_false (fun h => nomatch h) h1

lemma get_semester_ok_winter (s : Str) :
    get_semester s = .ok "Winter".toList ↔ s.drop 4 = "15".toList := by
  unfold get_semester
  split_ifs with h1 h2 h3 h4
  · exact iff_of_false (fun h => absurd (Except.ok.inj h) (by decide))
      (fun h => absurd (h1.symm.trans h) (by decide))
  · exact iff_of_true rfl h2
  · exact iff_of_false (fun h => absurd (Except.ok.inj h) (by decide))
      (fun h => absurd (h3.symm.trans h) (by decide))
  · exact iff_of_false (fun h => absurd (Except.ok.inj h) (by decide))
      (fun h => absurd (h4.symm.trans h) (by decide))
  · exact iff_of_false (fun h => nomatch h) h2

lemma get_semester_ok_spring (s : Str) :
    get_semester s = .ok "Spring".toList ↔ s.drop 4 = "20".toList := by
  unfold get_semester
  split_ifs with h1 h2 h3 h4
  · exact iff_of_false (fun h => absurd (Except.ok.inj h) (by decide))
      (fun h => absurd (h1.symm.trans h) (by decide))
  · exact iff_of_false (fun h => absurd (Except.ok.inj h) (by decide))
      (fun h => absurd (h2.symm.trans h) (by decide))
  · exact iff_of_true rfl h3
  · exact iff_of_false (fun h => absurd (Except.ok.inj h) (by decide))
      (fun h => absurd (h4.symm.trans h) (by decide))
  · exact iff_of_false (fun h => nomatch h) h3

lemma get_semester_ok_summer (s : Str) :
    get_semester s = .ok "Summer".toList ↔ s.drop 4 = "00".toList := by
  unfold get_semester
  split_ifs with h1 h2 h3 h4
  · exact iff_of_false (fun h => absurd (Except.ok.inj h) (by decide))
      (fun h => absurd (h1.symm.trans h) (by decide))
  · exact iff_of_false (fun h => absurd (Except.ok.inj h) (by decide))
      (fun h => absurd (h2.symm.trans h) (by decide))
  · exact iff_of_false (fun h => absurd (Except.ok.inj h) (by decide))
      (fun h => absurd (h3.symm.trans h) (by decide))
  · exact iff_of_true rfl h4
  · exact iff_of_false (fun h => nomatch h) h4

lemma get_semester_error_iff (s : Str) :
    (∃ e, get_semester s = .error e) ↔
      ¬ (s.drop 4 = "10".toList ∨ s.drop 4 = "15".toList ∨
         s.drop 4 = "20".toList ∨ s.drop 4 = "00".toList) := by
  unfold get_semester
  split_ifs with h1 h2 h3 h4
  · exact iff_of_false (fun ⟨e, h⟩ => nomatch h) (fun h => h (Or.inl h1))
  · exact iff_of_false (fun ⟨e, h⟩ => nomatch h)
      (fun h => h (Or.inr (Or.inl h2)))
  · exact iff_of_false (fun ⟨e, h⟩ => nomatch h)
      (fun h => h (Or.inr (Or.inr (Or.inl h3))))
  · exact iff_of_false (fun ⟨e, h⟩ => nomatch h)
      (fun h => h (Or.inr (Or.inr (Or.inr h4))))
  · exact iff_of_true ⟨_, rfl⟩ (fun h => h.elim h1 (fun h => h.elim h2 (fun h => h.elim h3 h4)))

/-- C2 (counterexample): the string "9910" has last two characters "10", yet
`get_semester` raises instead of returning Fall, because the code inspects the
characters from index 4 onward (`srcdb[4:]`), not the last two characters. -/
theorem get_semester_last_two_counterexample :
    "9910".toList.drop ("9910".toList.length - 2) = "10".toList ∧
      (∃ e, get_semester "9910".toList = .error e) ∧
      get_semester "9910".toList ≠ .ok "Fall".toList := by
  refine ⟨by decide, ⟨"Invalid srcdb for semester lookup: 9910".toList, by decide⟩, by decide⟩

/-- C2 (amended): `get_semester` returns Fall/Winter/Spring/Summer exactly when
the term code has length six and its last two characters are "10"/"15"/"20"/"00"
respectively, and raises a reported error for every other string. -/
theorem get_semester_spec (s : Str) :
    (get_semester s = .ok "Fall".toList ↔
        s.length = 6 ∧ s.drop (s.length - 2) = "10".toList)
  ∧ (get_semester s = .ok "Winter".toList ↔
        s.length = 6 ∧ s.drop (s.length - 2) = "15".toList)
  ∧ (get_semester s = .ok "Spring".toList ↔
        s.length = 6 ∧ s.drop (s.length - 2) = "20".toList)
  ∧ (get_semester s = .ok "Summer".toList ↔
        s.length = 6 ∧ s.drop (s.length - 2) = "00".toList)
  ∧ ((∃ e, get_semester s = .error e) ↔
        ¬ (s.length = 6 ∧ (s.drop (s.length - 2) = "10".toList ∨
            s.drop (s.length - 2) = "15".toList ∨
            s.drop (s.length - 2) = "20".toList ∨
            s.drop (s.length - 2) = "00".toList))) := by
  have e10 := drop_four_eq_iff s "10".toList (by decide)
  have e15 := drop_four_eq_iff s "15".toList (by decide)
  have e20 := drop_four_eq_iff s "20".toList (by decide)
  have e00 := drop_four_eq_iff s "00".toList (by decide)
  refine ⟨(get_semester_ok_fall s).trans e10, (get_semester_ok_winter s).trans e15,
    (get_semester_ok_spring s).trans e20, (get_semester_ok_summer s).trans e00, ?_⟩
  rw [get_semester_error_iff s, e10, e15, e20, e00]
  tauto

/-! ## Course Consolidator (src/scrape.py, organize_all_courses) -/

/-- One raw section entry from the catalog search endpoint, with the fields
`organize_all_courses` consumes. -/
structure RawCourse where
  code : Str
  title : Str
  srcdb : Str
  crn : Str
deriving DecidableEq

/-- One consolidated course.  The Python `set`s of semesters and CRNs are
modelled as duplicate-free lists (membership-checked insertion). -/
structure Course where
  code : Str
  title : Str
  semesters : List Str
  crns : List Str
deriving DecidableEq

/-- Python `set.add`: insert if not already a member. -/
def setAdd (l : List Str) (x : Str) : List Str :=
  if x ∈ l then l else l ++ [x]

/-- In-place update of `processed_results[stored_index]`. -/
def updateAt : List Course → Nat → (Course → Course) → List Course
  | [], _, _ => []
  | c :: rest, 0, f => f c :: rest
  | c :: rest, i + 1, f => c :: updateAt rest i f

/-- The two `.add` calls of the already-seen branch. -/
def addToCourse (sem crn : Str) (c : Course) : Course :=
  { c with semesters := setAdd c.semesters sem, crns := setAdd c.crns crn }

/-- Loop body of `organize_all_courses` (src/scrape.py): `seen_courses` is the
code-to-index dictionary, `processed` the results list built so far. -/
def organizeAux : List RawCourse → List (Str × Nat) → List Course → Except Str (List Course)
  | [], _, processed => .ok processed
  | course :: rest, seen, processed =>
    match List.lookup course.code seen with
    | none =>
      match get_semester course.srcdb with
      | .error e => .error e
      | .ok sem =>
        organizeAux rest ((course.code, seen.length) :: seen)
          (processed ++ [{ code := course.code, title := course.title,
                           semesters := [sem], crns := [course.crn] }])
    | some stored_index =>
      match get_semester course.srcdb with
      | .error e => .error e
      | .ok sem =>
        organizeAux rest seen (updateAt processed stored_index (addToCourse sem course.crn))

/-- Embedding of `organize_all_courses` (src/scrape.py).  The final
set-to-list conversion is the identity in this model. -/
def organize_all_courses (l : List RawCourse) : Except Str (List Course) :=
  organizeAux l [] []

/-- Specification-side definition: the input codes in first-seen order with
later duplicates dropped. -/
def first_seen_codes (codes : List Str) : List Str :=
  codes.foldl (fun acc x => if x ∈ acc then acc else acc ++ [x]) []

lemma setAdd_ne_nil (l : List Str) (x : Str) : setAdd l x ≠ [] := by
  unfold setAdd
  split_ifs with h
  · rintro rfl
    exact absurd h (List.not_mem_nil x)
  · simp

lemma updateAt_map_code (l : List Course) (i : Nat) (f : Course → Course)
    (hf : ∀ c, (f c).code = c.code) :
    (updateAt l i f).map Course.code = l.map Course.code := by
  induction l generalizing i with
  | nil => rfl
  | cons c rest ih =>
    cases i with
    | zero => simp [updateAt, hf]
    | succ j => simp [updateAt, ih]

lemma updateAt_mem (l : List Course) (i : Nat) (f : Course → Course) :
    ∀ c' ∈ updateAt l i f, c' ∈ l ∨ ∃ c ∈ l, c' = f c := by
  induction l generalizing i with
  | nil => intro c' hc'; exact absurd hc' (List.not_mem_nil c')
  | cons c rest ih =>
    cases i with
    | zero =>
      intro c' hc'
      rcases List.mem_cons.mp hc' with rfl | hc2
      · exact Or.inr ⟨c, List.mem_cons_self c rest, rfl⟩
      · exact Or.inl (List.mem_cons_of_mem c hc2)
    | succ j =>
      intro c' hc'
      rcases List.mem_cons.mp hc' with rfl | hc2
      · exact Or.inl (List.mem_cons_self _ _)
      · rcases ih j c' hc2 with h | ⟨c'', hc'', rfl⟩
        · exact Or.inl (List.mem_cons_of_mem c h)
        · exact Or.inr ⟨c'', List.mem_cons_of_mem c hc'', rfl⟩

lemma organizeAux_spec (l : List RawCourse) :
    ∀ (seen : List (Str × Nat)) (processed : List Course),
    (∀ code : Str, List.lookup code seen = none ↔ code ∉ processed.map Course.code) →
    (processed.map Course.code).Nodup →
    (∀ c ∈ processed, c.semesters ≠ [] ∧ c.crns ≠ []) →
    ∀ out : List Course, organizeAux l seen processed = .ok out →
    (out.map Course.code).Nodup ∧ (∀ c ∈ out, c.semesters ≠ [] ∧ c.crns ≠ []) ∧
      out.map Course.code =
        l.foldl (fun acc r => if r.code ∈ acc then acc else acc ++ [r.code])
          (processed.map Course.code) := by
  induction l with
  | nil =>
    intro seen processed hinv hnd hne out h
    simp only [organizeAux] at h
    have := Except.ok.inj h
    subst this
    exact ⟨hnd, hne, rfl⟩
  | cons course rest ih =>
    intro seen processed hinv hnd hne out h
    cases hlk : List.lookup course.code seen with
    | none =>
      cases hsem : get_semester course.srcdb with
      | error e =>
        simp only [organizeAux, hlk, hsem] at h
        exact nomatch h
      | ok sem =>
        simp only [organizeAux, hlk, hsem] at h
        have hmem : course.code ∉ processed.map Course.code := (hinv course.code).mp hlk
        have hinv' : ∀ code : Str,
            List.lookup code ((course.code, seen.length) :: seen) = none ↔
              code ∉ (processed ++
                [Course.mk course.code course.title [sem] [course.crn]]).map Course.code := by
          intro code
          by_cases hc : code = course.code
          · subst hc
            simp [List.lookup]
          · have hbeq : (code == course.code) = false := beq_eq_false_iff_ne.mpr hc
            simp [List.lookup, hbeq, hinv code, hc]
        have hnd' : ((processed ++
            [Course.mk course.code course.title [sem] [course.crn]]).map Course.code).Nodup := by
          rw [List.map_append]
          exact List.nodup_append.mpr ⟨hnd, List.nodup_singleton _,
            fun a ha hb => by simp at hb; subst hb; exact hmem ha⟩
        have hne' : ∀ c ∈ processed ++
            [Course.mk course.code course.title [sem] [course.crn]],
            c.semesters ≠ [] ∧ c.crns ≠ [] := by
          intro c hc
          rcases List.mem_append.mp hc with hc | hc
          · exact hne c hc
          · simp at hc
            subst hc
            exact ⟨by simp, by simp⟩
        have hres := ih _ _ hinv' hnd' hne' out h
        refine ⟨hres.1, hres.2.1, ?_⟩
        rw [hres.2.2]
        simp [List.foldl_cons, hmem]
    | some stored_index =>
      cases hsem : get_semester course.srcdb with
      | error e =>
        simp only [organizeAux, hlk, hsem] at h
        exact nomatch h
      | ok sem =>
        simp only [organizeAux, hlk, hsem] at h
        have hmem : course.code ∈ processed.map Course.code := by
          by_contra hc
          rw [← hinv course.code] at hc
          rw [hc] at hlk
          exact nomatch hlk
        have hcodes : (updateAt processed stored_index
            (addToCourse sem course.crn)).map Course.code = processed.map Course.code :=
          updateAt_map_code _ _ _ (fun c => rfl)
        have hinv' : ∀ code : Str, List.lookup code seen = none ↔
            code ∉ (updateAt processed stored_index
              (addToCourse sem course.crn)).map Course.code := by
          intro code
          rw [hcodes]
          exact hinv code
        have hne' : ∀ c ∈ updateAt processed stored_index (addToCourse sem course.crn),
            c.semesters ≠ [] ∧ c.crns ≠ [] := by
          intro c hc
          rcases updateAt_mem _ _ _ c hc with hc' | ⟨c', hc', rfl⟩
          · exact hne c hc'
          · exact ⟨setAdd_ne_nil _ _, setAdd_ne_nil _ _⟩
        have hres := ih _ _ hinv' (by rw [hcodes]; exact hnd) hne' out h
        refine ⟨hres.1, hres.2.1, ?_⟩
        rw [hres.2.2, hcodes]
        simp [List.foldl_cons, hmem]

/-- C1: whenever the Course Consolidator succeeds, every output course has
non-empty `crns` and `semesters`, the course codes are pairwise distinct, and
the courses appear in first-seen order of their codes in the input. -/
theorem organize_all_courses_invariants (l : List RawCourse) (out : List Course)
    (h : organize_all_courses l = .ok out) :
    (out.map Course.code).Nodup ∧
      (∀ c ∈ out, c.crns ≠ [] ∧ c.semesters ≠ []) ∧
      out.map Course.code = first_seen_codes (l.map RawCourse.code) := by
  have hres := organizeAux_spec l [] []
    (fun code => by simp [List.lookup]) (by simp) (by intro c hc; exact absurd hc (List.not_mem_nil c))
    out h
  refine ⟨hres.1, fun c hc => ⟨(hres.2.1 c hc).2, (hres.2.1 c hc).1⟩, ?_⟩
  rw [hres.2.2, first_seen_codes, List.foldl_map]
  rfl

/-- Concrete input for the C1 witness: two sections of one course and one
section of another. -/
def orgWitnessInput : List RawCourse :=
  [⟨"CSCI 0150".toList, "Intro".toList, "202410".toList, "17001".toList⟩,
   ⟨"CSCI 0150".toList, "Intro".toList, "202420".toList, "17002".toList⟩,
   ⟨"MATH 0100".toList, "Calc".toList, "202410".toList, "18001".toList⟩]

/-- The consolidated output for `orgWitnessInput`. -/
def orgWitnessOutput : List Course :=
  [⟨"CSCI 0150".toList, "Intro".toList, ["Fall".toList, "Spring".toList],
    ["17001".toList, "17002".toList]⟩,
   ⟨"MATH 0100".toList, "Calc".toList, ["Fall".toList], ["18001".toList]⟩]

/-- C1 (witness): the consolidator invariants hold on a concrete run. -/
theorem organize_all_courses_invariants_witness :
    organize_all_courses orgWitnessInput = .ok orgWitnessOutput ∧
      ((orgWitnessOutput.map Course.code).Nodup ∧
        (∀ c ∈ orgWitnessOutput, c.crns ≠ [] ∧ c.semesters ≠ []) ∧
        orgWitnessOutput.map Course.code =
          first_seen_codes (orgWitnessInput.map RawCourse.code)) :=
  ⟨by decide, organize_all_courses_invariants orgWitnessInput orgWitnessOutput (by decide)⟩

/-! ## Detail Enricher (src/scrape.py, add_course_details / save_all_course_data) -/

/-- JSON-ish values stored in a course dictionary. -/
inductive JVal where
  | str : Str → JVal
  | arr : List Str → JVal
  | obj : List (Str × Str) → JVal
deriving DecidableEq, Inhabited

/-- Reading a dictionary entry as a string (anything else is a type error). -/
def asStr : JVal → Option Str
  | .str s => some s
  | _ => none

/-- Reading a dictionary entry as a list of strings. -/
def asArr : JVal → Option (List Str)
  | .arr l => some l
  | _ => none

/-- Python dict assignment `d[k] = v`: overwrite in place if the key exists,
append at the end otherwise. -/
def setKey : List (Str × JVal) → Str → JVal → List (Str × JVal)
  | [], k, v => [(k, v)]
  | (k', v') :: rest, k, v =>
    if k' = k then (k, v) :: rest else (k', v') :: setKey rest k v

/-- The `keys_to_keep` list of `add_course_details` (src/scrape.py). -/
def keys_to_keep : List Str :=
  ["seats", "description", "registration_restrictions", "clssnotes",
   "resources_critical_review_html", "resources_syllabus_html",
   "resources_materials_html", "exam_html", "meeting_html",
   "instructordetail_html", "regdemog_json", "all_sections"].map String.toList

/-- The dict comprehension of `add_course_details`: keep exactly the
allow-listed keys that are present in the payload. -/
def filter_course_details (payload : List (Str × Str)) : List (Str × Str) :=
  keys_to_keep.filterMap (fun k => (List.lookup k payload).map (fun v => (k, v)))

/-- Python `code.split(' ')[0]`. -/
def splitFirstToken (s : Str) : Str := s.takeWhile (fun c => c ≠ ' ')

/-- Embedding of `add_course_details` (src/scrape.py).  The HTTP call
`get_course_details` is the abstract collaborator `fetch`; a `none` from any
step models the corresponding Python exception (missing key, empty `crns`,
failed fetch). -/
def add_course_details (fetch : Str → Str → Option (List (Str × Str)))
    (course_data : List (Str × JVal)) : Option (List (Str × JVal)) := do
  let codeV ← List.lookup "code".toList course_data
  let code ← asStr codeV
  let crnsV ← List.lookup "crns".toList course_data
  let crns ← asArr crnsV
  let crn ← crns.head?
  let payload ← fetch (splitFirstToken code) crn
  some (setKey course_data "details".toList (.obj (filter_course_details payload)))

/-- Embedding of the enrichment loop of `save_all_course_data` (src/scrape.py):
courses are enriched sequentially and an exception anywhere aborts the run. -/
def enrich_all_courses (fetch : Str → Str → Option (List (Str × Str))) :
    List (List (Str × JVal)) → Option (List (List (Str × JVal)))
  | [] => some []
  | c :: rest => do
    let c' ← add_course_details fetch c
    let rest' ← enrich_all_courses fetch rest
    some (c' :: rest')

lemma setKey_lookup_ne (d : List (Str × JVal)) (k : Str) (v : JVal) (k' : Str) (h : k' ≠ k) :
    List.lookup k' (setKey d k v) = List.lookup k' d := by
  induction d with
  | nil =>
    show List.lookup k' [(k, v)] = List.lookup k' []
    cases hb : k' == k with
    | false => simp [List.lookup, hb]
    | true => exact absurd (eq_of_beq hb) h
  | cons p rest ih =>
    rcases p with ⟨pk, pv⟩
    by_cases hpk : pk = k
    · subst hpk
      cases hb : k' == pk with
      | false => simp [setKey, List.lookup, hb]
      | true => exact absurd (eq_of_beq hb) h
    · cases hb2 : k' == pk with
      | false => simp [setKey, hpk, List.lookup, hb2, ih]
      | true => simp [setKey, hpk, List.lookup, hb2]

lemma setKey_keys (d : List (Str × JVal)) (k : Str) (v : JVal) :
    (setKey d k v).map Prod.fst =
      if k ∈ d.map Prod.fst then d.map Prod.fst else d.map Prod.fst ++ [k] := by
  induction d with
  | nil => simp [setKey]
  | cons p rest ih =>
    rcases p with ⟨pk, pv⟩
    by_cases hpk : pk = k
    · have hstep : setKey ((pk, pv) :: rest) k v = (k, v) :: rest := by
        simp [setKey, hpk]
      rw [hstep, List.map_cons, List.map_cons, hpk, if_pos (List.mem_cons_self _ _)]
    · have hne : k ≠ pk := fun hh => hpk hh.symm
      have hstep : setKey ((pk, pv) :: rest) k v = (pk, pv) :: setKey rest k v := by
        simp [setKey, hpk]
      rw [hstep, List.map_cons, ih, List.map_cons]
      by_cases hm : k ∈ rest.map Prod.fst
      · rw [if_pos hm, if_pos (List.mem_cons_of_mem _ hm)]
      · rw [if_neg hm, if_neg (fun hk => (List.mem_cons.mp hk).elim hne (fun hk2 => hm hk2))]
        simp

lemma add_course_details_eq (fetch : Str → Str → Option (List (Str × Str)))
    (course out : List (Str × JVal)) (h : add_course_details fetch course = some out) :
    ∃ pl, out = setKey course "details".toList (.obj (filter_course_details pl)) := by
  rw [add_course_details] at h
  rcases hcv : List.lookup "code".toList course with _ | codeV
  · simp only [hcv, Option.bind_eq_bind, Option.none_bind] at h
    exact nomatch h
  · simp only [hcv, Option.bind_eq_bind, Option.some_bind] at h
    rcases hsv : asStr codeV with _ | code
    · simp only [hsv, Option.bind_eq_bind, Option.none_bind] at h
      exact nomatch h
    · simp only [hsv, Option.bind_eq_bind, Option.some_bind] at h
      rcases harr : List.lookup "crns".toList course with _ | crnsV
      · simp only [harr, Option.bind_eq_bind, Option.none_bind] at h
        exact nomatch h
      · simp only [harr, Option.bind_eq_bind, Option.some_bind] at h
        rcases hav : asArr crnsV with _ | crns
        · simp only [hav, Option.bind_eq_bind, Option.none_bind] at h
          exact nomatch h
        · simp only [hav, Option.bind_eq_bind, Option.some_bind] at h
          rcases hhd : crns.head? with _ | crn
          · simp only [hhd, Option.bind_eq_bind, Option.none_bind] at h
            exact nomatch h
          · simp only [hhd, Option.bind_eq_bind, Option.some_bind] at h
            rcases hf : fetch (splitFirstToken code) crn with _ | payload
            · simp only [hf, Option.bind_eq_bind, Option.none_bind] at h
              exact nomatch h
            · simp only [hf, Option.bind_eq_bind, Option.some_bind, Option.some.injEq] at h
              exact ⟨payload, h.symm⟩

/-- C10: whenever enrichment succeeds it only sets the `details` key — every
other key's value is unchanged, and the key set gains at most `details`. -/
theorem add_course_details_frame (fetch : Str → Str → Option (List (Str × Str)))
    (course out : List (Str × JVal)) (h : add_course_details fetch course = some out) :
    (∀ k : Str, k ≠ "details".toList → List.lookup k out = List.lookup k course) ∧
      out.map Prod.fst =
        (if "details".toList ∈ course.map Prod.fst then course.map Prod.fst
         else course.map Prod.fst ++ ["details".toList]) := by
  rcases add_course_details_eq fetch course out h with ⟨pl, rfl⟩
  exact ⟨fun k hk => setKey_lookup_ne course _ _ k hk, setKey_keys course _ _⟩

/-- Fetch collaborator for the C10 witness. -/
def detailsWitnessFetch : Str → Str → Option (List (Str × Str)) :=
  fun _ _ => some [("description".toList, "Desc".toList)]

/-- Course dictionary for the C10 witness. -/
def detailsWitnessCourse : List (Str × JVal) :=
  [("code".toList, .str "AFRI 0090".toList), ("title".toList, .str "T".toList),
   ("semesters".toList, .arr ["Fall".toList]), ("crns".toList, .arr ["17423".toList])]

/-- Enriched output for the C10 witness. -/
def detailsWitnessOut : List (Str × JVal) :=
  detailsWitnessCourse ++ [("details".toList, .obj [("description".toList, "Desc".toList)])]

/-- C10 (witness): the frame property on a concrete enrichment run. -/
theorem add_course_details_frame_witness :
    add_course_details detailsWitnessFetch detailsWitnessCourse = some detailsWitnessOut ∧
      List.lookup "title".toList detailsWitnessOut =
        List.lookup "title".toList detailsWitnessCourse :=
  ⟨by decide,
   (add_course_details_frame detailsWitnessFetch detailsWitnessCourse detailsWitnessOut
      (by decide)).1 "title".toList (by decide)⟩

/-- Course dictionary for the C4 bug evaluation. -/
def cartOptsBugCourse : List (Str × JVal) :=
  [("code".toList, .str "AFRI 0090".toList), ("title".toList, .str "T".toList),
   ("semesters".toList, .arr ["Fall".toList]), ("crns".toList, .arr ["17423".toList])]

/-- C4 (bug evaluation): a details payload containing the grade-mode key
`cart_opts` loses it during enrichment — `cart_opts` is missing from
`keys_to_keep` although the allow-list in the spec includes the grade-mode
JSON and src/format.py later reads `details_cart_opts`. -/
theorem add_course_details_drops_cart_opts :
    "cart_opts".toList ∉ keys_to_keep ∧
      filter_course_details
          [("cart_opts".toList, "GM".toList), ("description".toList, "D".toList)] =
        [("description".toList, "D".toList)] ∧
      add_course_details
          (fun _ _ => some [("cart_opts".toList, "GM".toList), ("description".toList, "D".toList)])
          cartOptsBugCourse =
        some (cartOptsBugCourse ++
          [("details".toList, .obj [("description".toList, "D".toList)])]) := by
  refine ⟨by decide, by decide, by decide⟩

/-- C5 (amended): if the detail fetch step fails for any course in the run,
the whole enrichment loop aborts with no output (and records nothing). -/
theorem enrich_all_courses_abort (fetch : Str → Str → Option (List (Str × Str)))
    (courses : List (List (Str × JVal))) (c : List (Str × JVal)) (hc : c ∈ courses)
    (hfail : add_course_details fetch c = none) :
    enrich_all_courses fetch courses = none := by
  induction courses with
  | nil => exact absurd hc (List.not_mem_nil c)
  | cons d rest ih =>
    rcases List.mem_cons.mp hc with rfl | hmem
    · simp only [enrich_all_courses, hfail, Option.bind_eq_bind, Option.none_bind]
    · cases hd : add_course_details fetch d with
      | none => simp only [enrich_all_courses, hd, Option.bind_eq_bind, Option.none_bind]
      | some d' =>
        simp only [enrich_all_courses, hd, Option.bind_eq_bind, Option.some_bind,
          ih hmem, Option.none_bind]

/-- Fetch collaborator for the C5 counterexample: fails exactly on CRN "2". -/
def abortFetch : Str → Str → Option (List (Str × Str)) :=
  fun _ crn => if crn = "2".toList then none else some [("description".toList, "D".toList)]

/-- First course of the C5 counterexample (its fetch succeeds). -/
def abortCourse1 : List (Str × JVal) :=
  [("code".toList, .str "AAAA 0001".toList), ("crns".toList, .arr ["1".toList])]

/-- Second course of the C5 counterexample (its fetch fails). -/
def abortCourse2 : List (Str × JVal) :=
  [("code".toList, .str "BBBB 0002".toList), ("crns".toList, .arr ["2".toList])]

/-- C5 (counterexample): the fetch failure of the second course alone makes the
whole run produce nothing — the first course's successful enrichment is lost
and no record of the failed course codes exists, contradicting the claimed
partial-failure tolerance. -/
theorem enrich_all_courses_abort_counterexample :
    add_course_details abortFetch abortCourse1 =
        some (abortCourse1 ++
          [("details".toList, .obj [("description".toList, "D".toList)])]) ∧
      add_course_details abortFetch abortCourse2 = none ∧
      enrich_all_courses abortFetch [abortCourse1, abortCourse2] = none := by
  refine ⟨by decide, by decide, by decide⟩

/-- C5 (witness): the amended abort behaviour derived on the concrete run. -/
theorem enrich_all_courses_abort_witness :
    enrich_all_courses abortFetch [abortCourse1, abortCourse2] = none :=
  enrich_all_courses_abort abortFetch [abortCourse1, abortCourse2] abortCourse2
    (by decide) (by decide)

/-! ## Field Normalizer (src/format.py) -/

/-- Python whitespace characters for `str.strip` (the common subset, including
the non-breaking space, which Python also treats as whitespace). -/
def isPySpace (c : Char) : Bool :=
  c == ' ' || c == '\t' || c == '\n' || c == '\r' || c == '\x0b' || c == '\x0c' || c == '\u00A0'

/-- Python `str.strip()`. -/
def pyStrip (s : Str) : Str :=
  ((s.dropWhile isPySpace).reverse.dropWhile isPySpace).reverse

/-- Recursion core of Python `str.replace(pat, rep)`: replace every
occurrence left to right, non-overlapping, without rescanning the replacement
text.  The fuel argument only bounds the recursion depth; one unit is spent
per step, and a step consumes at least one input character, so any fuel of at
least the input length gives the replace-all semantics. -/
def replaceStrFuel (pat rep : Str) : Nat → Str → Str
  | _, [] => []
  | 0, s => s
  | fuel + 1, c :: rest =>
    if pat ≠ [] ∧ pat.isPrefixOf (c :: rest) then
      rep ++ replaceStrFuel pat rep fuel ((c :: rest).drop pat.length)
    else
      c :: replaceStrFuel pat rep fuel rest

/-- Python `str.replace(pat, rep)`. -/
def replaceStr (pat rep s : Str) : Str := replaceStrFuel pat rep s.length s

lemma replaceStrFuel_no_occur (pat rep : Str) (fuel : Nat) :
    ∀ s : Str, s.length ≤ fuel →
    (∀ i, ¬ (pat.isPrefixOf (s.drop i) = true)) →
    replaceStrFuel pat rep fuel s = s := by
  induction fuel with
  | zero =>
    intro s hlen hocc
    cases s with
    | nil => rfl
    | cons c rest => simp at hlen
  | succ fuel ih =>
    intro s hlen hocc
    cases s with
    | nil => rfl
    | cons c rest =>
      show (if pat ≠ [] ∧ pat.isPrefixOf (c :: rest) then
          rep ++ replaceStrFuel pat rep fuel ((c :: rest).drop pat.length)
        else c :: replaceStrFuel pat rep fuel rest) = c :: rest
      rw [if_neg (fun hcon => hocc 0 (by simpa using hcon.2))]
      have hlen2 : rest.length ≤ fuel := by
        simp only [List.length_cons] at hlen
        omega
      rw [ih rest hlen2 (fun i hp => hocc (i + 1) (by simpa using hp))]

lemma replaceStr_no_occur (pat rep s : Str)
    (hocc : ∀ i, ¬ (pat.isPrefixOf (s.drop i) = true)) :
    replaceStr pat rep s = s :=
  replaceStrFuel_no_occur pat rep s.length s le_rfl hocc

lemma no_occur_of_bounded (pat s : Str) (hpat : pat ≠ [])
    (h : ∀ i < s.length, ¬ (pat.isPrefixOf (s.drop i) = true)) :
    ∀ i, ¬ (pat.isPrefixOf (s.drop i) = true) := by
  intro i hp
  by_cases hi : i < s.length
  · exact h i hi hp
  · rw [List.drop_eq_nil_of_le (by omega)] at hp
    cases pat with
    | nil => exact hpat rfl
    | cons a as => exact absurd hp (by simp [List.isPrefixOf])

/-- Boilerplate header stripped by `format_sections_field` (src/format.py). -/
def sectionsHeader : Str := "Section # CRN Meets Instructor ".toList

/-- Trailing marker stripped by `format_sections_field` (src/format.py). -/
def viewCalendarMarker : Str := " VIEW CALENDAR".toList

/-- Embedding of `format_sections_field` (src/format.py): a falsy input
(`None` or the empty string) is returned unchanged, otherwise the text is
stripped and both fixed markers removed everywhere. -/
def format_sections_field (all_sections : Option Str) : Option Str :=
  match all_sections with
  | none => none
  | some s =>
    if s = [] then some []
    else some (replaceStr viewCalendarMarker [] (replaceStr sectionsHeader [] (pyStrip s)))

/-- C9 (counterexample): a section text with neither the header nor the
trailing marker is still changed — surrounding whitespace is stripped — so the
transform does not leave all other content untouched. -/
theorem format_sections_field_counterexample :
    format_sections_field (some "  S01 12345  ".toList) = some "S01 12345".toList ∧
      "S01 12345".toList ≠ "  S01 12345  ".toList := by
  refine ⟨by decide, by decide⟩

/-- C9 (amended): `format_sections_field` first strips leading and trailing
whitespace, then removes every occurrence of the header string and of the
trailing marker; text without whitespace padding and without occurrences of
either marker is returned untouched, and the two markers are removed as in the
concrete example. -/
theorem format_sections_field_spec :
    (∀ s : Str, s ≠ [] → pyStrip s = s →
      (∀ i < s.length, ¬ (sectionsHeader.isPrefixOf (s.drop i) = true)) →
      (∀ i < s.length, ¬ (viewCalendarMarker.isPrefixOf (s.drop i) = true)) →
      format_sections_field (some s) = some s)
  ∧ format_sections_field
      (some "Section # CRN Meets Instructor S01 12345 Smith VIEW CALENDAR".toList) =
        some "S01 12345 Smith".toList
  ∧ format_sections_field none = none := by
  refine ⟨?_, by decide, rfl⟩
  intro s hs hstrip h1 h2
  have e1 : replaceStr sectionsHeader [] s = s :=
    replaceStr_no_occur _ _ _ (no_occur_of_bounded _ _ (by decide) h1)
  have e2 : replaceStr viewCalendarMarker [] s = s :=
    replaceStr_no_occur _ _ _ (no_occur_of_bounded _ _ (by decide) h2)
  simp only [format_sections_field, if_neg hs, hstrip, e1, e2]

/-- C9 (witness): untouched-content case of the amended claim on a concrete
input. -/
theorem format_sections_field_spec_witness :
    format_sections_field (some "S01 12345 Smith".toList) = some "S01 12345 Smith".toList :=
  format_sections_field_spec.1 "S01 12345 Smith".toList (by decide) (by decide)
    (by decide) (by decide)

/-- The demographic-code table of `format_registration_demographics_field`
(src/format.py). -/
def abbreviations : List (Str × Str) :=
  [("FY".toList, "First Year".toList), ("So".toList, "Sophomore".toList),
   ("Jr".toList, "Junior".toList), ("Sr".toList, "Senior".toList),
   ("Gr".toList, "Graduate Level".toList), ("Oth".toList, "Other".toList)]

/-- The loop of `format_registration_demographics_field` (src/format.py) over
the parsed JSON object, in source key order: `assert key in abbreviations` is
modelled as `Except.error` at the first unknown key. -/
def demogLoop : List (Str × Nat) → Except Str (List Str)
  | [] => .ok []
  | p :: rest =>
    match List.lookup p.1 abbreviations with
    | none => .error p.1
    | some label =>
      match demogLoop rest with
      | .error e => .error e
      | .ok entries => .ok ((label ++ ": ".toList ++ (Nat.repr p.2).toList) :: entries)

/-- Embedding of `format_registration_demographics_field` (src/format.py).
The input is the embedded-JSON object already parsed into ordered key/count
pairs (`json.loads` is the external JSON collaborator); a falsy `reg_demog`
(Python `None` or the empty string) is `none` and yields Python's implicit
`None` return. -/
def format_registration_demographics_field
    (reg_demog : Option (List (Str × Nat))) : Except Str (Option Str) :=
  match reg_demog with
  | none => .ok none
  | some pairs =>
    match demogLoop pairs with
    | .error e => .error e
    | .ok entries => .ok (some (List.intercalate ", ".toList entries))

lemma lookup_isSome_iff (k : Str) (l : List (Str × Str)) :
    (List.lookup k l).isSome = true ↔ k ∈ l.map Prod.fst := by
  induction l with
  | nil => simp [List.lookup]
  | cons p rest ih =>
    rcases p with ⟨pk, pv⟩
    cases hb : k == pk with
    | true =>
      have hk : k = pk := eq_of_beq hb
      simp [List.lookup, hb, hk]
    | false =>
      have hk : k ≠ pk := by
        intro hh
        rw [hh] at hb
        simp at hb
      simp [List.lookup, hb, ih, hk]

lemma demogLoop_ok (pairs : List (Str × Nat))
    (h : ∀ p ∈ pairs, p.1 ∈ abbreviations.map Prod.fst) :
    demogLoop pairs = .ok (pairs.map (fun p =>
      (List.lookup p.1 abbreviations).getD [] ++ ": ".toList ++ (Nat.repr p.2).toList)) := by
  induction pairs with
  | nil => rfl
  | cons p rest ih =>
    have hp := h p (List.mem_cons_self _ _)
    rcases Option.isSome_iff_exists.mp ((lookup_isSome_iff p.1 abbreviations).mpr hp)
      with ⟨label, hl⟩
    simp only [demogLoop, hl, ih (fun q hq => h q (List.mem_cons_of_mem _ hq)), List.map_cons]
    simp [hl]

lemma demogLoop_error (pairs : List (Str × Nat))
    (h : ∃ p ∈ pairs, p.1 ∉ abbreviations.map Prod.fst) :
    ∃ e, demogLoop pairs = .error e := by
  induction pairs with
  | nil =>
    rcases h with ⟨p, hp, _⟩
    exact absurd hp (List.not_mem_nil p)
  | cons p rest ih =>
    cases hl : List.lookup p.1 abbreviations with
    | none => exact ⟨p.1, by simp [demogLoop, hl]⟩
    | some label =>
      rcases h with ⟨q, hq, hqn⟩
      rcases List.mem_cons.mp hq with rfl | hq2
      · exact absurd ((lookup_isSome_iff q.1 abbreviations).mp (by simp [hl])) hqn
      · rcases ih ⟨q, hq2, hqn⟩ with ⟨e, he⟩
        exact ⟨e, by simp [demogLoop, hl, he]⟩

/-- C6: on a non-absent demographics object whose keys are all known codes the
transform returns the comma-joined labelled counts in source key order, and it
raises a reported error exactly when some key is outside the code set. -/
theorem format_registration_demographics_spec (pairs : List (Str × Nat)) :
    ((∀ p ∈ pairs, p.1 ∈ abbreviations.map Prod.fst) →
      format_registration_demographics_field (some pairs) =
        .ok (some (List.intercalate ", ".toList (pairs.map (fun p =>
          (List.lookup p.1 abbreviations).getD [] ++ ": ".toList ++
            (Nat.repr p.2).toList)))))
  ∧ ((∃ p ∈ pairs, p.1 ∉ abbreviations.map Prod.fst) →
      ∃ e, format_registration_demographics_field (some pairs) = .error e) := by
  constructor
  · intro h
    simp only [format_registration_demographics_field, demogLoop_ok pairs h]
  · intro h
    rcases demogLoop_error pairs h with ⟨e, he⟩
    exact ⟨e, by simp [format_registration_demographics_field, he]⟩

/-- C6 (witness): the worked example from the spec — a known-code object
renders in key order, and an unknown code raises. -/
theorem format_registration_demographics_spec_witness :
    format_registration_demographics_field
        (some [("FY".toList, 10), ("Jr".toList, 5)]) =
      .ok (some "First Year: 10, Junior: 5".toList) ∧
    (∃ e, format_registration_demographics_field (some [("ZZ".toList, 1)]) = .error e) := by
  constructor
  · have h := (format_registration_demographics_spec
      [("FY".toList, 10), ("Jr".toList, 5)]).1 (by decide)
    rw [h]
    decide
  · exact (format_registration_demographics_spec [("ZZ".toList, 1)]).2
      ⟨("ZZ".toList, 1), by decide, by decide⟩

/-! ## Exam-date extraction (src/format.py, extract_exam_date) -/

/-- The list of naturals `s, s+1, ..., s+n-1`, used to model the scan order of
the regex engine. -/
def countFrom (s : Nat) : Nat → List Nat
  | 0 => []
  | n + 1 => s :: countFrom (s + 1) n

/-- Candidate match positions `0, ..., n-1`. -/
def natRange (n : Nat) : List Nat := countFrom 0 n

/-- Start marker of the pattern r"(Exam Date: .*?) Exam Group: ". -/
def examDateMarker : Str := "Exam Date: ".toList

/-- Stop marker of the pattern r"(Exam Date: .*?) Exam Group: ". -/
def examGroupMarker : Str := " Exam Group: ".toList

/-- The HTML entity removed by `extract_exam_date` before matching. -/
def nbspEntity : Str := "&#160;".toList

/-- Lazy completion of the pattern from position `k` (the end of the start
marker): the least `j ≥ k` where the stop marker matches such that the
non-greedy `.*?` region `s[k:j]` contains no newline (`.` does not match a
newline). -/
def lazyStop (s : Str) (k : Nat) : Option Nat :=
  (natRange s.length).find? (fun j =>
    decide (k ≤ j) && examGroupMarker.isPrefixOf (s.drop j) &&
      !(((s.drop k).take (j - k)).contains '\n'))

/-- `re.search` semantics for the pattern of `extract_exam_date`: the match
starts at the least index where the start marker matches and the lazy part
completes; the captured group 1 is `s[i:j]`. -/
def searchExam (s : Str) : Option Str :=
  match (natRange s.length).find? (fun i =>
      examDateMarker.isPrefixOf (s.drop i) &&
        (lazyStop s (i + examDateMarker.length)).isSome) with
  | none => none
  | some i =>
    match lazyStop s (i + examDateMarker.length) with
    | none => none
    | some j => some ((s.drop i).take (j - i))

/-- Embedding of `extract_exam_date` (src/format.py): falsy input yields
Python's implicit `None`; otherwise "&#160;" is replaced by a space and the
regex search is run, returning the captured group or `None`. -/
def extract_exam_date (exam_info : Option Str) : Option Str :=
  match exam_info with
  | none => none
  | some s =>
    if s = [] then none
    else searchExam (replaceStr nbspEntity " ".toList s)

lemma find?_countFrom (p : Nat → Bool) :
    ∀ (n s m : Nat), s ≤ m → m < s + n → p m = true →
    (∀ k, s ≤ k → k < m → p k = false) →
    (countFrom s n).find? p = some m := by
  intro n
  induction n with
  | zero =>
    intro s m h1 h2 h3 h4
    omega
  | succ n ih =>
    intro s m h1 h2 h3 h4
    show (s :: countFrom (s + 1) n).find? p = some m
    cases hps : p s with
    | true =>
      have hm : m = s := by
        by_contra hne
        have hlt : s < m := lt_of_le_of_ne h1 (Ne.symm hne)
        rw [h4 s le_rfl hlt] at hps
        exact Bool.noConfusion hps
      subst hm
      simp [List.find?, hps]
    | false =>
      simp only [List.find?, hps]
      have hne : s ≠ m := fun hh => by
        rw [hh, h3] at hps
        exact Bool.noConfusion hps
      exact ih (s + 1) m (by omega) (by omega) h3 (fun k hk1 hk2 => h4 k (by omega) hk2)

lemma lt_length_of_prefix_drop (pat l : Str) (n : Nat) (hpat : pat ≠ [])
    (h : pat.isPrefixOf (l.drop n) = true) : n < l.length := by
  by_contra hn
  rw [List.drop_eq_nil_of_le (by omega)] at h
  cases pat with
  | nil => exact hpat rfl
  | cons a as => simp [List.isPrefixOf] at h

/-- C7 (counterexample): the transform does not return a substring of the
input text — the entity "&#160;" is first replaced by a space — and a newline
between the markers makes the match fail even though the marker pair occurs in
the text. -/
theorem extract_exam_date_counterexample :
    extract_exam_date (some "Exam Date: a&#160;b Exam Group: x".toList) =
        some "Exam Date: a b".toList ∧
      "Exam Date: a b".toList ≠ "Exam Date: a&#160;b".toList ∧
      extract_exam_date (some "Exam Date: a\nb Exam Group: x".toList) = none := by
  refine ⟨by decide, by decide, by decide⟩

/-- C7 (amended): after replacing every "&#160;" by a space, if the start
marker "Exam Date: " first occurs at `i` and the stop marker " Exam Group: "
first occurs at `j` past the start marker with no newline in between, the
transform returns exactly the replaced text from `i` up to but not including
`j` (the non-greedy capture including the start marker). -/
theorem extract_exam_date_spec (s : Str) (i j : Nat) (hs : s ≠ [])
    (hid : examDateMarker.isPrefixOf ((replaceStr nbspEntity " ".toList s).drop i) = true)
    (hfirst : ∀ i' < i,
      ¬ (examDateMarker.isPrefixOf ((replaceStr nbspEntity " ".toList s).drop i') = true))
    (hj1 : i + examDateMarker.length ≤ j)
    (hgp : examGroupMarker.isPrefixOf ((replaceStr nbspEntity " ".toList s).drop j) = true)
    (hmin : ∀ j' < j, i + examDateMarker.length ≤ j' →
      ¬ (examGroupMarker.isPrefixOf ((replaceStr nbspEntity " ".toList s).drop j') = true))
    (hnl : (((replaceStr nbspEntity " ".toList s).drop (i + examDateMarker.length)).take
        (j - (i + examDateMarker.length))).contains '\n' = false) :
    extract_exam_date (some s) =
      some (((replaceStr nbspEntity " ".toList s).drop i).take (j - i)) := by
  set t := replaceStr nbspEntity " ".toList s with ht
  have hjlen : j < t.length :=
    lt_length_of_prefix_drop examGroupMarker t j (by decide) hgp
  have hilen : i < t.length :=
    lt_length_of_prefix_drop examDateMarker t i (by decide) hid
  have hstop : lazyStop t (i + examDateMarker.length) = some j := by
    apply find?_countFrom _ t.length 0 j (Nat.zero_le j) (by omega)
    · have hd : decide (i + examDateMarker.length ≤ j) = true := decide_eq_true hj1
      rw [hd, hgp, hnl]
      rfl
    · intro k hk0 hkj
      by_cases hk : i + examDateMarker.length ≤ k
      · have hPF : examGroupMarker.isPrefixOf (t.drop k) = false :=
          Bool.eq_false_iff.mpr (hmin k hkj hk)
        rw [hPF]
        simp
      · have hd : decide (i + examDateMarker.length ≤ k) = false :=
          decide_eq_false hk
        rw [hd]
        simp
  have hsearch : searchExam t = some ((t.drop i).take (j - i)) := by
    have hfind : (natRange t.length).find? (fun i' =>
        examDateMarker.isPrefixOf (t.drop i') &&
          (lazyStop t (i' + examDateMarker.length)).isSome) = some i := by
      apply find?_countFrom _ t.length 0 i (Nat.zero_le i) (by omega)
      · rw [hid, hstop]
        rfl
      · intro k hk0 hki
        have hPF : examDateMarker.isPrefixOf (t.drop k) = false :=
          Bool.eq_false_iff.mpr (hfirst k hki)
        rw [hPF]
        simp
    simp only [searchExam, hfind, hstop]
  rw [extract_exam_date, if_neg hs, ← ht, hsearch]

/-- C7 (witness): the worked example from the spec, derived from the amended
characterization at the concrete match positions. -/
theorem extract_exam_date_spec_witness :
    extract_exam_date (some "foo Exam Date: May 5 2024 Exam Group: 3 bar".toList) =
      some "Exam Date: May 5 2024".toList := by
  have h := extract_exam_date_spec "foo Exam Date: May 5 2024 Exam Group: 3 bar".toList 4 25
    (by decide) (by decide) (by decide) (by decide) (by decide) (by decide) (by decide)
  rw [h]
  decide

/-! ## HTML-to-text transform (src/format.py, format_html_fields)

The heavy lifting of this transform is done by the external HTML library
(BeautifulSoup), which is not part of this repository; its behaviour is
modelled from the spec below, and the control flow around it is the embedding
of `format_html_fields` itself. -/

/-- The non-breaking space character replaced by `format_html_fields`. -/
def nbspChar : Char := '\u00A0'

/-- Modelled from the spec: the HTML library's tokenizer state walk used by
text extraction — characters between a tag-opening and the matching
tag-closing bracket belong to markup, the rest form the visible text
segments (an unclosed trailing tag contributes nothing). -/
def segsAux : Str → Bool → Str → List Str
  | [], false, acc => [acc.reverse]
  | [], true, _ => []
  | c :: rest, false, acc =>
    if c = '<' then acc.reverse :: segsAux rest true []
    else segsAux rest false (c :: acc)
  | c :: rest, true, acc =>
    if c = '>' then segsAux rest false []
    else segsAux rest true acc

/-- Modelled from the spec: visible text segments of an HTML fragment. -/
def textSegments (s : Str) : List Str := segsAux s false []

/-- Modelled from the spec: HTML entity decoding done by the parser; only the
non-breaking-space entity matters for this pipeline. -/
def decodeEntities (s : Str) : Str := replaceStr "&nbsp;".toList [nbspChar] s

/-- Modelled from the spec: the library's `get_text(separator=' ',
strip=True)` — each text segment is entity-decoded and stripped, empty
segments are dropped, and the rest are joined with single spaces. -/
def html_get_text (s : Str) : Str :=
  List.intercalate " ".toList
    (((textSegments s).map (fun seg => pyStrip (decodeEntities seg))).filter
      (fun seg => !seg.isEmpty))

/-- Modelled from the spec: the markup test (`bool(soup.find())`) — the parser
builds an element exactly when a tag opener directly followed by a letter
occurs in the input. -/
def html_contains_markup : Str → Bool
  | [] => false
  | [_] => false
  | c :: c2 :: rest => (c == '<' && c2.isAlpha) || html_contains_markup (c2 :: rest)

/-- Embedding of `format_html_fields` (src/format.py): falsy input yields
Python's implicit `None`; markup-containing input is converted to visible
text with non-breaking spaces replaced by plain spaces; anything else is
returned unchanged. -/
def format_html_fields (to_format : Option Str) : Option Str :=
  match to_format with
  | none => none
  | some s =>
    if s = [] then none
    else if html_contains_markup s then
      some (replaceStr [nbspChar] " ".toList (html_get_text s))
    else some s

/-- C8: absent input stays absent; markup-free input is returned completely
unchanged; and the markup example from the spec renders to visible text with
the non-breaking space replaced by a plain space. -/
theorem format_html_fields_spec :
    format_html_fields none = none
  ∧ (∀ s : Str, s ≠ [] → html_contains_markup s = false →
      format_html_fields (some s) = some s)
  ∧ format_html_fields (some "<p>Hi&nbsp;there</p>".toList) = some "Hi there".toList
  ∧ format_html_fields (some "no markup".toList) = some "no markup".toList := by
  refine ⟨rfl, ?_, by decide, by decide⟩
  intro s h1 h2
  simp [format_html_fields, h1, h2]

/-- C8 (witness): the unchanged-text case of the claim on a concrete input. -/
theorem format_html_fields_spec_witness :
    format_html_fields (some "plain text".toList) = some "plain text".toList :=
  format_html_fields_spec.2.1 "plain text".toList (by decide) (by decide)

/-! ## Report Renderer (src/format_to_txt.py, formatted_json_to_txt) -/

/-- The fields read by the per-course template of `formatted_json_to_txt`
(src/format_to_txt.py); after formatting, an absent/empty field is JSON null,
modelled as `none`. -/
structure FmtCourse where
  code : Option Str
  title : Option Str
  semesters : Option Str
  description : Option Str
  instructordetail_html : Option Str
  meeting_html : Option Str
  exam_html : Option Str
  attr_html : Option Str
  seats : Option Str
  registration_info : Option Str
  registration_restrictions : Option Str
  registration_options : Option Str
  clssnotes : Option Str
deriving DecidableEq

/-- Python truthiness of a nullable string. -/
def truthy (o : Option Str) : Bool :=
  match o with
  | none => false
  | some s => !s.isEmpty

/-- Embedding of the per-course block of `formatted_json_to_txt`
(src/format_to_txt.py).  Concatenating a label with a JSON null raises
`TypeError` in Python, so every unconditionally templated field is an
`Option` bind; only the curricular-programs (`attr_html`) and `seats` lines
are guarded by truthiness checks in the source. -/
def render_course (c : FmtCourse) : Option Str := do
  let code ← c.code
  let title ← c.title
  let description ← c.description
  let semesters ← c.semesters
  let instr ← c.instructordetail_html
  let meeting ← c.meeting_html
  let exam ← c.exam_html
  let reginfo ← c.registration_info
  let regres ← c.registration_restrictions
  let regopts ← c.registration_options
  let clss ← c.clssnotes
  some (code ++ " - ".toList ++ title ++ "\n".toList
    ++ "Course Description: ".toList ++ description ++ "\n".toList
    ++ "This course will be offered in the ".toList ++ semesters ++ "\n".toList
    ++ "This course will be taught by ".toList ++ instr ++ "\n".toList
    ++ "This course will meet on ".toList ++ meeting ++ "\n".toList
    ++ "The final exam for this course will be on ".toList ++ exam ++ "\n".toList
    ++ (if truthy c.attr_html then
          "This course belongs to the following curricular programs: ".toList ++
            c.attr_html.getD [] ++ "\n".toList
        else [])
    ++ "Enrollment info: \n".toList
    ++ (if truthy c.seats then " - ".toList ++ c.seats.getD [] ++ "\n".toList else [])
    ++ " - Enrollment demographics: ".toList ++ reginfo ++ "\n".toList
    ++ "Registration info: \n".toList
    ++ " - Registration requirements: ".toList ++ regres ++ "\n".toList
    ++ " - Grade Mode Options: ".toList ++ regopts ++ "\n".toList
    ++ " - Additional registration information:".toList ++ clss)

/-- A course with every templated value present except the guarded ones. -/
def renderCexBase : FmtCourse :=
  { code := some "C".toList, title := some "T".toList, semesters := some "S".toList,
    description := some "D".toList, instructordetail_html := some "I".toList,
    meeting_html := some "M".toList, exam_html := some "E".toList,
    attr_html := none, seats := none,
    registration_info := some "R1".toList, registration_restrictions := some "R2".toList,
    registration_options := some "R3".toList, clssnotes := some "R4".toList }

/-- C3 (counterexample): an absent description makes the whole course render
fail instead of producing its labelled line with an empty value, and an absent
`seats` value omits the seats line entirely — so the curricular-programs line
is not the single exception. -/
theorem render_course_counterexample :
    render_course { renderCexBase with description := none } = none ∧
      render_course renderCexBase =
        some ("C - T\nCourse Description: D\nThis course will be offered in the S\nThis course will be taught by I\nThis course will meet on M\nThe final exam for this course will be on E\nEnrollment info: \n - Enrollment demographics: R1\nRegistration info: \n - Registration requirements: R2\n - Grade Mode Options: R3\n - Additional registration information:R4").toList := by
  refine ⟨by decide, by decide⟩

/-- C3 (amended): rendering a course succeeds exactly when every
unconditionally templated field is present; the curricular-programs and seats
lines are guarded (emitted only for present, non-empty values) and their
absence never fails rendering, while any other absent templated field makes
rendering of the course fail rather than emit the line with an empty value. -/
lemma render_course_isSome_eq (c : FmtCourse) :
    (render_course c).isSome =
      (c.code.isSome && c.title.isSome && c.description.isSome && c.semesters.isSome &&
       c.instructordetail_html.isSome && c.meeting_html.isSome && c.exam_html.isSome &&
       c.registration_info.isSome && c.registration_restrictions.isSome &&
       c.registration_options.isSome && c.clssnotes.isSome) := by
  rcases c with ⟨code, title, sems, desc, instr, meet, exam, attr, seats, rinfo, rres, ropt, clss⟩
  cases code <;> cases title <;> cases desc <;> cases sems <;> cases instr <;> cases meet <;>
    cases exam <;> cases rinfo <;> cases rres <;> cases ropt <;> cases clss <;> rfl

theorem render_course_spec (c : FmtCourse) :
    (render_course c).isSome = true ↔
      (c.code.isSome = true ∧ c.title.isSome = true ∧ c.description.isSome = true ∧
       c.semesters.isSome = true ∧ c.instructordetail_html.isSome = true ∧
       c.meeting_html.isSome = true ∧ c.exam_html.isSome = true ∧
       c.registration_info.isSome = true ∧ c.registration_restrictions.isSome = true ∧
       c.registration_options.isSome = true ∧ c.clssnotes.isSome = true) := by
  rw [render_course_isSome_eq]
  simp only [Bool.and_eq_true, and_assoc]
